import Mathlib

/-! # skywire-mainnet: overlay network address codec, app connection, process manager

A shallow embedding of

* `pkg/network/network.go`   (`Network.Dial`, `Network.Listen`, `makeConn`,
  `makeListener`, `disassembleAddr`),
* `pkg/app2/conn.go`         (`Conn.Read/Write/Close`, deadline setters),
* `pkg/app2/appserver/proc.go` (`Proc.Run`, `Proc.closeRPCServer`, `getBinaryPath`),

together with the parts of the Go standard library these functions call
(`strings.Split`, `fmt.Sscanf` with the verb `%d` into a `*uint16`,
`strconv.ParseUint`, `encoding/hex`, `path/filepath.Join`/`Clean` on Unix).

Go strings are modelled as lists of Unicode characters.  A Go `panic` is an
explicit result value.  Calls on collaborators (the dmsg client, the RPC stub,
the child process, the RPC server) are functions on an abstract world state
and every call is recorded in an explicit trace.
-/

namespace GoStd

/-! ## `strings.Split` with a one-character separator -/

/-- Worker of `strings.Split s sep` for a one-character separator: `cur` holds
the characters of the piece being read, most recent first. -/
def splitAux (sep : Char) : List Char → List Char → List (List Char)
  | [], cur => [cur.reverse]
  | c :: cs, cur =>
    if c = sep then cur.reverse :: splitAux sep cs [] else splitAux sep cs (c :: cur)

/-- `strings.Split(s, sep)`: the pieces of `s` between the occurrences of `sep`;
there is always one piece more than there are separators. -/
def split (sep : Char) (s : List Char) : List (List Char) := splitAux sep s []

/-! ## `encoding/hex` -/

/-- `hextable[n]` of `encoding/hex`: the lower-case hexadecimal digit of `n < 16`. -/
def hexDigit (n : Nat) : Char :=
  if n < 10 then Char.ofNat (48 + n) else Char.ofNat (87 + n)

/-- `fromHexChar` / `reverseHexTable` of `encoding/hex`: value of one
hexadecimal digit, upper or lower case; `none` for any other character. -/
def fromHexChar (c : Char) : Option Nat :=
  if 48 ≤ c.toNat ∧ c.toNat ≤ 57 then some (c.toNat - 48)
  else if 97 ≤ c.toNat ∧ c.toNat ≤ 102 then some (c.toNat - 97 + 10)
  else if 65 ≤ c.toNat ∧ c.toNat ≤ 70 then some (c.toNat - 65 + 10)
  else none

/-- `hex.EncodeToString`: two lower-case digits per byte, high nibble first. -/
def hexEncode : List (Fin 256) → List Char
  | [] => []
  | b :: bs => hexDigit (b.val / 16) :: hexDigit (b.val % 16) :: hexEncode bs

/-- `hex.DecodeString`: two digits per byte; `none` on a character that is not a
hexadecimal digit or on an odd number of characters. -/
def hexDecode : List Char → Option (List (Fin 256))
  | [] => some []
  | [_] => none
  | p :: q :: rest =>
    match fromHexChar p, fromHexChar q with
    | some a, some b =>
      match hexDecode rest with
      | some bs => some (Fin.ofNat (a * 16 + b) :: bs)
      | none => none
    | _, _ => none

/-! ## `fmt.Sscanf(s, "%d", &port)` with `port : uint16` -/

/-- `isSpace` of package `fmt` (the table `space` of `fmt/scan.go`). -/
def isSpace (r : Char) : Bool :=
  let x := r.toNat
  (0x0009 ≤ x && x ≤ 0x000d) || x == 0x0020 || x == 0x0085 || x == 0x00a0 ||
  x == 0x1680 || (0x2000 ≤ x && x ≤ 0x200a) || (0x2028 ≤ x && x ≤ 0x2029) ||
  x == 0x202f || x == 0x205f || x == 0x3000

/-- `(*ss).SkipSpace` with `nlIsSpace = false` (the mode of `Sscanf`): drops
leading spaces; a newline is the error "unexpected newline" (`none`). A
carriage return directly followed by a newline is skipped, after which the
newline is met. -/
def skipSpace : List Char → Option (List Char)
  | [] => some []
  | r :: rest =>
    if r.toNat = 10 then none
    else if isSpace r then skipSpace rest
    else some (r :: rest)

/-- The set `decimalDigits = "0123456789"` of `fmt/scan.go`, the digits the
verb `%d` accepts (`getBase`). -/
def inDecimalDigits (c : Char) : Bool :=
  48 ≤ c.toNat && c.toNat ≤ 57

/-- `(*ss).scanNumber(decimalDigits, false)`: at least one character of the set
is required ("expected integer" or end of input otherwise); the token is the
longest run of such characters. Returns the token and the unread input. -/
def scanNumber (s : List Char) : Option (List Char × List Char) :=
  match s with
  | [] => none
  | c :: _ =>
    if inDecimalDigits c then some (s.takeWhile inDecimalDigits, s.dropWhile inDecimalDigits)
    else none

/-- The loop of `strconv.ParseUint(tok, 10, 64)` with `n` the value so far:
a character that is not a decimal digit is a syntax error, a value that does
not fit 64 bits is a range error (`none` in both cases). -/
def parseUintLoop : List Char → Nat → Option Nat
  | [], n => some n
  | c :: cs, n =>
    if 48 ≤ c.toNat ∧ c.toNat ≤ 57 then
      let d := c.toNat - 48
      if n ≥ (2 ^ 64 - 1) / 10 + 1 then none
      else
        let n10 := (n * 10) % 2 ^ 64
        let n1 := (n10 + d) % 2 ^ 64
        if n1 < n10 ∨ n1 > 2 ^ 64 - 1 then none else parseUintLoop cs n1
    else none

/-- `strconv.ParseUint(s, 10, 64)`. -/
def parseUint (s : List Char) : Option Nat :=
  match s with
  | [] => none
  | _ => parseUintLoop s 0

/-- `(*ss).scanUint('d', 16)`: skip spaces, read the token, parse it in base 10
and reject a value that does not fit 16 bits. -/
def scanUint16 (s : List Char) : Option Nat :=
  match skipSpace s with
  | none => none
  | some s1 =>
    match scanNumber s1 with
    | none => none
    | some (tok, _) =>
      match parseUint tok with
      | none => none
      | some i => if (i * 2 ^ 48 % 2 ^ 64) / 2 ^ 48 ≠ i then none else some i

/-- `fmt.Sscanf(s, "%d", &port)` for `port : uint16`: `some v` when the call
returns a nil error having stored `v`, `none` when it returns an error. The
format is the single verb `%d` without a width, so the call is one `scanUint`;
`doScanf` does not look at the input left unread after the number. -/
def sscanfUint16 (s : List Char) : Option Nat := scanUint16 s

/-- Base-10 text of a natural number, as `%d` prints it. -/
def formatDecimal (n : Nat) : List Char := Nat.toDigits 10 n

/-! ## `path/filepath.Join` and `Clean` (Unix: separator `/`, no volume name) -/

/-- The backtracking loop of the `..` case of `Clean`: starting at index `w`,
step down while `w > dotdot` and the byte written at `w` is not a separator. -/
def backtrackIdx (out : List Char) (dotdot : Nat) : Nat → Nat
  | 0 => 0
  | w + 1 =>
    if w + 1 > dotdot ∧ out.get? (w + 1) ≠ some '/' then backtrackIdx out dotdot w else w + 1

/-- One iteration of the main loop of `filepath.Clean`, entered with `r < n`:
`c` is the byte `path[r]`, `t` the input after it, `out` the bytes written so
far (`out.w` is its length), `dotdot` the index in `out` where `..` must stop.
Returns the unread input, `out` and `dotdot` after the iteration. -/
def cleanStep (rooted : Bool) (c : Char) (t out : List Char) (dotdot : Nat) :
    List Char × List Char × Nat :=
  if c = '/' then
    -- empty path element
    (t, out, dotdot)
  else if c = '.' ∧ (t = [] ∨ t.head? = some '/') then
    -- . element
    (t, out, dotdot)
  else if c = '.' ∧ t.head? = some '.' ∧ (t.tail = [] ∨ t.tail.head? = some '/') then
    -- .. element: remove to last separator
    if out.length > dotdot then
      (t.tail, out.take (backtrackIdx out dotdot (out.length - 1)), dotdot)
    else if rooted = false then
      let out1 := if out.length > 0 then out ++ ['/'] else out
      let out2 := out1 ++ ['.', '.']
      (t.tail, out2, out2.length)
    else (t.tail, out, dotdot)
  else
    -- real path element: add slash if needed, copy element
    let out1 :=
      if (rooted = true ∧ out.length ≠ 1) ∨ (rooted = false ∧ out.length ≠ 0)
      then out ++ ['/'] else out
    ((c :: t).dropWhile (fun x => x ≠ '/'),
      out1 ++ (c :: t).takeWhile (fun x => x ≠ '/'), dotdot)

/-- The main loop `for r < n` of `filepath.Clean`, on the unread input
`path[r:]`. Every iteration reads at least one byte, so `len(path)`
iterations, the first argument, always reach the end of the input (see
`cleanLoop_fuel`). Returns the final `out` and `dotdot`. -/
def cleanLoop (rooted : Bool) : Nat → List Char → List Char → Nat → List Char × Nat
  | 0, _, out, dotdot => (out, dotdot)
  | _ + 1, [], out, dotdot => (out, dotdot)
  | fuel + 1, c :: t, out, dotdot =>
    let s := cleanStep rooted c t out dotdot
    cleanLoop rooted fuel s.1 s.2.1 s.2.2

/-- `filepath.Clean(path)` on Unix. -/
def Clean (path : List Char) : List Char :=
  match path with
  | [] => ['.']
  | c :: t =>
    let rooted : Bool := decide (c = '/')
    let out :=
      if rooted then (cleanLoop rooted path.length t ['/'] 1).1
      else (cleanLoop rooted path.length path [] 0).1
    if out.length = 0 then ['.'] else out

/-- `strings.Join(elems, sep)`. -/
def stringsJoin (elems : List (List Char)) (sep : List Char) : List Char :=
  sep.intercalate elems

/-- `filepath.Join(elem...)` on Unix: leading empty elements are ignored, the
rest is joined with `/` and cleaned; the empty string when all are empty. -/
def Join : List (List Char) → List Char
  | [] => []
  | e :: es => if e ≠ [] then Clean (stringsJoin (e :: es) ['/']) else Join es

end GoStd

namespace cipher

/-- The type `cipher.PubKey` is `[33]byte`; the length is part of validity. -/
abbrev PubKey := List (Fin 256)

/-- `cipher.PubKey.Set` (package `dmsg/cipher`, through `PubKeyFromHex` and
`NewPubKey`): decode the hexadecimal text, require 33 bytes, run the curve
check. The curve check `verify` (secp256k1 `VerifyPubkey`) is a parameter. -/
def PubKey.Set (verify : PubKey → Bool) (s : List Char) : Option PubKey :=
  match GoStd.hexDecode s with
  | none => none
  | some b => if b.length = 33 ∧ verify b = true then some b else none

/-- `cipher.PubKey.Hex`: the lower-case hexadecimal text of the key. -/
def PubKey.Hex (k : PubKey) : List Char := GoStd.hexEncode k

/-- A valid public key: 33 bytes that pass the curve check. -/
def PubKey.Valid (verify : PubKey → Bool) (k : PubKey) : Prop :=
  k.length = 33 ∧ verify k = true

end cipher

namespace network

open GoStd cipher

/-- Outcome of a Go call that either returns or panics. -/
inductive Result (α : Type) where
  | ok : α → Result α
  | panic : Result α
  deriving DecidableEq, Repr

/-- `disassembleAddr` of `pkg/network/network.go`, on the text `addr.String()`.
The named result `port` keeps its zero value when the port segment is `~`. -/
def disassembleAddr (verify : PubKey → Bool) (addr : List Char) : Result (PubKey × Nat) :=
  match split ':' addr with
  | [s0, s1] =>
    match PubKey.Set verify s0 with
    | none => Result.panic
    | some pk =>
      if s1 ≠ ['~'] then
        match sscanfUint16 s1 with
        | none => Result.panic
        | some port => Result.ok (pk, port)
      else Result.ok (pk, 0)
  | _ => Result.panic

/-- `DmsgNet`, the one supported network type. -/
def DmsgNet : List Char := ['d', 'm', 's', 'g']

/-- Errors returned by the package: `ErrUnknownNetwork`, or an error coming
from the underlying dmsg client. -/
inductive Error where
  | ErrUnknownNetwork : Error
  | transport : List Char → Error
  deriving DecidableEq, Repr

/-- `Config` of `pkg/network/network.go`. -/
structure Config where
  PubKey : PubKey
  SecKey : List (Fin 256)
  TpNetworks : List (List Char)
  DmsgDiscAddr : List Char
  DmsgMinSrvs : Int

/-- A raw `net.Conn` handed out by the dmsg client, seen through the two
endpoint texts `disassembleAddr` reads. -/
structure RawConn where
  LocalAddr : List Char
  RemoteAddr : List Char
  deriving DecidableEq, Repr

/-- A raw `net.Listener` handed out by the dmsg client. -/
structure RawListener where
  Addr : List Char
  deriving DecidableEq, Repr

/-- The two methods of `*dmsg.Client` that `Dial` and `Listen` call, as
functions on the state `σ` of the transport. -/
structure DmsgClient (σ : Type) where
  Dial : PubKey → Nat → σ → Except Error RawConn × σ
  Listen : Nat → σ → Except Error RawListener × σ

/-- A call made on the dmsg client. -/
inductive Call where
  | dial : PubKey → Nat → Call
  | listen : Nat → Call
  deriving DecidableEq, Repr

/-- State of the transport together with the record of every call made on
the dmsg client, oldest first. -/
structure World (σ : Type) where
  state : σ
  calls : List Call

/-- `Network` of `pkg/network/network.go`. -/
structure Network (σ : Type) where
  conf : Config
  dmsgC : DmsgClient σ

/-- `Conn` of `pkg/network/network.go`. -/
structure Conn where
  raw : RawConn
  lPK : PubKey
  rPK : PubKey
  lPort : Nat
  rPort : Nat
  network : List Char
  deriving DecidableEq, Repr

/-- `Listener` of `pkg/network/network.go`. -/
structure Listener where
  raw : RawListener
  lPK : PubKey
  lPort : Nat
  network : List Char
  deriving DecidableEq, Repr

/-- `makeConn`: the local address is read first, then the remote one; either
read may panic. -/
def makeConn (verify : PubKey → Bool) (conn : RawConn) (network : List Char) : Result Conn :=
  match disassembleAddr verify conn.LocalAddr with
  | Result.panic => Result.panic
  | Result.ok (lPK, lPort) =>
    match disassembleAddr verify conn.RemoteAddr with
    | Result.panic => Result.panic
    | Result.ok (rPK, rPort) =>
      Result.ok { raw := conn, lPK := lPK, rPK := rPK, lPort := lPort, rPort := rPort,
                  network := network }

/-- `makeListener`. -/
def makeListener (verify : PubKey → Bool) (l : RawListener) (network : List Char) :
    Result Listener :=
  match disassembleAddr verify l.Addr with
  | Result.panic => Result.panic
  | Result.ok (lPK, lPort) =>
    Result.ok { raw := l, lPK := lPK, lPort := lPort, network := network }

/-- `Network.Dial`. The Go result pair `(*Conn, error)` is a pair of options. -/
def Network.Dial {σ : Type} (verify : PubKey → Bool) (n : Network σ) (network : List Char)
    (pk : PubKey) (port : Nat) (w : World σ) :
    Result (Option Conn × Option Error) × World σ :=
  if network = DmsgNet then
    let r := n.dmsgC.Dial pk port w.state
    let w1 : World σ := { state := r.2, calls := w.calls ++ [Call.dial pk port] }
    match r.1 with
    | Except.error err => (Result.ok (none, some err), w1)
    | Except.ok conn =>
      match makeConn verify conn network with
      | Result.panic => (Result.panic, w1)
      | Result.ok c => (Result.ok (some c, none), w1)
  else (Result.ok (none, some Error.ErrUnknownNetwork), w)

/-- `Network.Listen`. -/
def Network.Listen {σ : Type} (verify : PubKey → Bool) (n : Network σ) (network : List Char)
    (port : Nat) (w : World σ) :
    Result (Option Listener × Option Error) × World σ :=
  if network = DmsgNet then
    let r := n.dmsgC.Listen port w.state
    let w1 : World σ := { state := r.2, calls := w.calls ++ [Call.listen port] }
    match r.1 with
    | Except.error err => (Result.ok (none, some err), w1)
    | Except.ok lis =>
      match makeListener verify lis network with
      | Result.panic => (Result.panic, w1)
      | Result.ok l => (Result.ok (some l, none), w1)
  else (Result.ok (none, some Error.ErrUnknownNetwork), w)

end network

namespace app2

/-- Errors seen by the application-side connection: the package-level
`errMethodNotImplemented`, or an error returned by the RPC stub.
Modelled from the spec: the variable `errMethodNotImplemented` is declared in
a file of the package that is not part of the sources at hand; the spec
calls it a stable, fixed "not implemented" error, so it is a value of its own
and a non-nil one. -/
inductive Error where
  | errMethodNotImplemented : Error
  | rpc : List Char → Error
  deriving DecidableEq, Repr

/-- Modelled from the spec: `network.Addr` of `pkg/app2/network` is declared
outside the sources at hand; the spec describes an overlay address as a
(public-key, port) pair. -/
structure Addr where
  PubKey : cipher.PubKey
  Port : Nat
  deriving DecidableEq, Repr

/-- The three methods of the interface `RPCClient` that `Conn` calls, as
functions on the state `σ` of the host side. `Read` returns the byte count,
the error and the contents of the buffer after the call. -/
structure RPCClient (σ : Type) where
  Read : Nat → List (Fin 256) → σ → (Nat × Option Error × List (Fin 256)) × σ
  Write : Nat → List (Fin 256) → σ → (Nat × Option Error) × σ
  CloseConn : Nat → σ → Option Error × σ

/-- A call made by a method of `Conn`: on the RPC stub, or on the release
callback `freeConn`. -/
inductive Event where
  | rpcRead : Nat → List (Fin 256) → Event
  | rpcWrite : Nat → List (Fin 256) → Event
  | rpcCloseConn : Nat → Event
  | freeConn : Event
  deriving DecidableEq, Repr

/-- State of the host side together with the record of every call made,
oldest first. -/
structure World (σ : Type) where
  state : σ
  trace : List Event

/-- `Conn` of `pkg/app2/conn.go`. The fields `local` and `remote` are named
`localAddr` and `remoteAddr`; a nil `freeConn` is `none`. The callback acts on
the host-side state. -/
structure Conn (σ : Type) where
  id : Nat
  rpc : RPCClient σ
  localAddr : Addr
  remoteAddr : Addr
  freeConn : Option (σ → σ)

/-- `(*Conn).Read`: returns the Go result pair, the buffer after the call, the
receiver after the call and the world after the call. -/
def Conn.Read {σ : Type} (c : Conn σ) (b : List (Fin 256)) (w : World σ) :
    (Nat × Option Error) × List (Fin 256) × Conn σ × World σ :=
  let r := c.rpc.Read c.id b w.state
  let w1 : World σ := { state := r.2, trace := w.trace ++ [Event.rpcRead c.id b] }
  match r.1.2.1 with
  | some err => ((0, some err), r.1.2.2, c, w1)
  | none => ((r.1.1, none), r.1.2.2, c, w1)

/-- `(*Conn).Write`. -/
def Conn.Write {σ : Type} (c : Conn σ) (b : List (Fin 256)) (w : World σ) :
    (Nat × Option Error) × Conn σ × World σ :=
  let r := c.rpc.Write c.id b w.state
  (r.1, c, { state := r.2, trace := w.trace ++ [Event.rpcWrite c.id b] })

/-- `(*Conn).Close`: `CloseConn` is called first; the deferred function then
calls `freeConn` when it is not nil; the result is what `CloseConn` returned. -/
def Conn.Close {σ : Type} (c : Conn σ) (w : World σ) : Option Error × Conn σ × World σ :=
  let r := c.rpc.CloseConn c.id w.state
  let w1 : World σ := { state := r.2, trace := w.trace ++ [Event.rpcCloseConn c.id] }
  match c.freeConn with
  | some f => (r.1, c, { state := f w1.state, trace := w1.trace ++ [Event.freeConn] })
  | none => (r.1, c, w1)

/-- `(*Conn).SetDeadline`; the `time.Time` argument is a number of nanoseconds. -/
def Conn.SetDeadline {σ : Type} (c : Conn σ) (_t : Int) (w : World σ) :
    Option Error × Conn σ × World σ :=
  (some Error.errMethodNotImplemented, c, w)

/-- `(*Conn).SetReadDeadline`. -/
def Conn.SetReadDeadline {σ : Type} (c : Conn σ) (_t : Int) (w : World σ) :
    Option Error × Conn σ × World σ :=
  (some Error.errMethodNotImplemented, c, w)

/-- `(*Conn).SetWriteDeadline`. -/
def Conn.SetWriteDeadline {σ : Type} (c : Conn σ) (_t : Int) (w : World σ) :
    Option Error × Conn σ × World σ :=
  (some Error.errMethodNotImplemented, c, w)

end app2

namespace appserver

/-- An error of the child process or of the RPC server, by its message. -/
structure Error where
  msg : List Char
  deriving DecidableEq, Repr

/-- `Config` of the process manager: the fields `NewProc` reads. -/
structure Config where
  Name : List Char
  Version : List Char
  SockFile : List Char
  WorkDir : List Char
  BinaryDir : List Char
  deriving DecidableEq, Repr

/-- What `Proc.Run` does to its collaborators, in order. `goListenAndServe` is
the start of the goroutine that runs `p.rpcS.ListenAndServe()`; that goroutine
runs on its own and its body is not part of the thread of `Run`. -/
inductive Event where
  | goListenAndServe : Event
  | cmdRun : Event
  | rpcClose : Event
  | logError : List Char → Error → Event
  deriving DecidableEq, Repr

/-- State of the operating system and the RPC server together with the record
of what `Run` did, oldest first. -/
structure World (σ : Type) where
  state : σ
  trace : List Event

/-- `Proc` of `pkg/app2/appserver/proc.go`: the child command `cmd` through its
blocking `Run` (start the process and wait for it; `none` is exit status 0),
the RPC server `rpcS` through its `Close`. -/
structure Proc (σ : Type) where
  config : Config
  cmdRun : σ → Option Error × σ
  rpcSClose : σ → Option Error × σ

/-- `(*Proc).closeRPCServer`: closes the RPC server and logs the error if any. -/
def Proc.closeRPCServer {σ : Type} (p : Proc σ) (w : World σ) : World σ :=
  let r := p.rpcSClose w.state
  let w1 : World σ := { state := r.2, trace := w.trace ++ [Event.rpcClose] }
  match r.1 with
  | some err =>
    { state := w1.state,
      trace := w1.trace ++ [Event.logError "error closing RPC server".toList err] }
  | none => w1

/-- `(*Proc).Run`. -/
def Proc.Run {σ : Type} (p : Proc σ) (w : World σ) : Option Error × World σ :=
  let w1 : World σ := { state := w.state, trace := w.trace ++ [Event.goListenAndServe] }
  let r := p.cmdRun w1.state
  let w2 : World σ := { state := r.2, trace := w1.trace ++ [Event.cmdRun] }
  match r.1 with
  | some err => (some err, p.closeRPCServer w2)
  | none => (none, w2)

/-- `getBinaryPath`: `filepath.Join(dir, fmt.Sprintf("%s.v%s", name, ver))`. -/
def getBinaryPath (dir name ver : List Char) : List Char :=
  GoStd.Join [dir, name ++ ['.', 'v'] ++ ver]

end appserver

/-! ## Notions used to state the properties -/

namespace GoStd

/-- A decimal digit character, `0` to `9`. -/
def isDec (c : Char) : Prop := 48 ≤ c.toNat ∧ c.toNat ≤ 57

/-- Value of a run of decimal digits read after the value `n`. -/
def decVal : List Char → Nat → Nat
  | [], n => n
  | c :: cs, n => decVal cs (n * 10 + (c.toNat - 48))

/-- An ordinary path element: not empty, without separator, neither `.` nor `..`. -/
def OrdinaryElem (e : List Char) : Prop :=
  e ≠ [] ∧ '/' ∉ e ∧ e ≠ ['.'] ∧ e ≠ ['.', '.']

/-- The text is a base-10 integer: one or more decimal digits and nothing else. -/
def isBase10Integer (s : List Char) : Bool :=
  !s.isEmpty && s.all (fun c => decide (48 ≤ c.toNat ∧ c.toNat ≤ 57))

/-- The text without its leading spaces other than a newline. -/
def dropBlanks (s : List Char) : List Char :=
  s.dropWhile (fun c => isSpace c && !(c.toNat == 10))

/-- The run of decimal digits the text begins with, after its leading spaces
other than a newline; empty when no digit stands there. -/
def leadingNumber (s : List Char) : List Char :=
  (dropBlanks s).takeWhile inDecimalDigits

/-- The text begins, after leading spaces other than a newline, with a run of
decimal digits whose base-10 value is at most 65535. -/
def startsWithPort (s : List Char) : Bool :=
  !(leadingNumber s).isEmpty && decide (decVal (leadingNumber s) 0 < 65536)

end GoStd

namespace network

/-- The key segment of an address text: what stands before the first `:`. -/
def keySegment (addr : List Char) : List Char := addr.takeWhile (fun c => c ≠ ':')

/-- The port segment of an address text: what stands after the first `:`. -/
def portSegment (addr : List Char) : List Char := (addr.dropWhile (fun c => c ≠ ':')).drop 1

/-- A malformed address text in the words of the specification: zero or at
least two `:`, or a key segment that is not a valid public key, or a port
segment that is neither `~` nor a base-10 integer. -/
def MalformedSpec (verify : cipher.PubKey → Bool) (addr : List Char) : Prop :=
  addr.count ':' ≠ 1 ∨ cipher.PubKey.Set verify (keySegment addr) = none ∨
    (portSegment addr ≠ ['~'] ∧ GoStd.isBase10Integer (portSegment addr) = false)

/-- The malformed address texts of `disassembleAddr`: zero or at least two
`:`, or a key segment that is not a valid public key, or a port segment that
is not `~` and does not begin, after leading spaces other than a newline, with
a run of decimal digits of value at most 65535 (an empty or non-numeric port
segment, or a number that does not fit 16 bits). -/
def Malformed (verify : cipher.PubKey → Bool) (addr : List Char) : Prop :=
  addr.count ':' ≠ 1 ∨ cipher.PubKey.Set verify (keySegment addr) = none ∨
    (portSegment addr ≠ ['~'] ∧ GoStd.startsWithPort (portSegment addr) = false)

instance (verify : cipher.PubKey → Bool) (k : cipher.PubKey) :
    Decidable (cipher.PubKey.Valid verify k) := by
  unfold cipher.PubKey.Valid
  exact inferInstance

instance (verify : cipher.PubKey → Bool) (addr : List Char) :
    Decidable (MalformedSpec verify addr) := by
  unfold MalformedSpec
  exact inferInstance

instance (verify : cipher.PubKey → Bool) (addr : List Char) :
    Decidable (Malformed verify addr) := by
  unfold Malformed
  exact inferInstance

end network

/-! ## Concrete collaborators for the examples -/

namespace Sample

/-- The compressed secp256k1 generator point, a key the curve check accepts. -/
def generatorKey : cipher.PubKey :=
  [0x02, 0x79, 0xbe, 0x66, 0x7e, 0xf9, 0xdc, 0xbb, 0xac, 0x55, 0xa0, 0x62, 0x95, 0xce, 0x87,
   0x0b, 0x07, 0x02, 0x9b, 0xfc, 0xdb, 0x2d, 0xce, 0x28, 0xd9, 0x59, 0xf2, 0x81, 0x5b, 0x16,
   0xf8, 0x17, 0x98]

/-- An instance of the curve-check parameter for the concrete examples: it
accepts the generator point and nothing else. -/
def acceptsGenerator : cipher.PubKey → Bool := fun k => decide (k = generatorKey)

/-- The text `0279be66...f81798` of the generator point. -/
def generatorHex : List Char :=
  "0279be667ef9dcbbac55a06295ce870b07029bfcdb2dce28d959f2815b16f81798".toList

/-- A dmsg client whose `Dial` and `Listen` always succeed, on a transport
whose state counts the calls served. -/
def dmsgClient : network.DmsgClient Nat where
  Dial := fun _ _ st =>
    (Except.ok { LocalAddr := generatorHex ++ ":1".toList,
                 RemoteAddr := generatorHex ++ ":2".toList }, st + 1)
  Listen := fun _ st => (Except.ok { Addr := generatorHex ++ ":~".toList }, st + 1)

/-- A network handle on `dmsgClient`. -/
def net : network.Network Nat where
  conf := { PubKey := generatorKey, SecKey := [], TpNetworks := [], DmsgDiscAddr := [],
            DmsgMinSrvs := 1 }
  dmsgC := dmsgClient

/-- An RPC stub whose calls all succeed, on a host state that is not changed. -/
def rpcStub : app2.RPCClient Nat where
  Read := fun _ b st => ((0, none, b), st)
  Write := fun _ b st => ((b.length, none), st)
  CloseConn := fun _ st => (none, st)

/-- A connection with id 7 whose release callback adds one to the host state,
which thus counts the releases. -/
def conn : app2.Conn Nat where
  id := 7
  rpc := rpcStub
  localAddr := { PubKey := generatorKey, Port := 1 }
  remoteAddr := { PubKey := generatorKey, Port := 2 }
  freeConn := some (fun st => st + 1)

/-- The configuration of the scenario of the specification. -/
def echoConfig : appserver.Config where
  Name := "echo".toList
  Version := "1".toList
  SockFile := "/tmp/echo.sock".toList
  WorkDir := "/tmp".toList
  BinaryDir := "/bin_under_test".toList

/-- A process whose binary exits with status 0; the state is `true` once the
RPC server has been closed. -/
def procExitsZero : appserver.Proc Bool where
  config := echoConfig
  cmdRun := fun st => (none, st)
  rpcSClose := fun _ => (none, true)

/-- A process whose binary fails to start, and whose RPC server reports an
error when closed; the state is `true` once the RPC server has been closed. -/
def procFailsToStart : appserver.Proc Bool where
  config := echoConfig
  cmdRun := fun st => (some { msg := "exec: not found".toList }, st)
  rpcSClose := fun _ => (some { msg := "close failed".toList }, true)

end Sample

/-! ## Lemmas on the standard-library models -/

namespace GoStd

theorem splitAux_no_sep (sep : Char) (s cur : List Char) (h : sep ∉ s) :
    splitAux sep s cur = [cur.reverse ++ s] := by
  induction s generalizing cur with
  | nil => simp [splitAux]
  | cons c cs ih =>
    have hc : c ≠ sep := fun e => h (by simp [e])
    have hcs : sep ∉ cs := fun e => h (by simp [e])
    simp [splitAux, hc, ih _ hcs]

theorem splitAux_append (sep : Char) (a b cur : List Char) (h : sep ∉ a) :
    splitAux sep (a ++ sep :: b) cur = (cur.reverse ++ a) :: splitAux sep b [] := by
  induction a generalizing cur with
  | nil => simp [splitAux]
  | cons c cs ih =>
    have hc : c ≠ sep := fun e => h (by simp [e])
    have hcs : sep ∉ cs := fun e => h (by simp [e])
    simp [splitAux, hc, ih _ hcs]

theorem split_two (sep : Char) (a b : List Char) (ha : sep ∉ a) (hb : sep ∉ b) :
    split sep (a ++ sep :: b) = [a, b] := by
  simp [split, splitAux_append sep a b [] ha, splitAux_no_sep sep b [] hb]

theorem splitAux_length (sep : Char) (s cur : List Char) :
    (splitAux sep s cur).length = s.count sep + 1 := by
  induction s generalizing cur with
  | nil => simp [splitAux]
  | cons c cs ih =>
    by_cases hc : c = sep
    · subst hc; simp [splitAux, ih]
    · have hc2 : (c == sep) = false := by simpa using hc
      simp [splitAux, hc, ih, List.count_cons, hc2]

theorem split_length (sep : Char) (s : List Char) :
    (split sep s).length = s.count sep + 1 := splitAux_length sep s []

theorem fromHexChar_hexDigit : ∀ n : Fin 16, fromHexChar (hexDigit n.val) = some n.val := by
  decide

theorem hexDigit_ne_colon : ∀ n : Fin 16, hexDigit n.val ≠ ':' := by
  decide

theorem hexDecode_hexEncode (k : List (Fin 256)) : hexDecode (hexEncode k) = some k := by
  induction k with
  | nil => rfl
  | cons b bs ih =>
    have h1 := fromHexChar_hexDigit ⟨b.val / 16, by omega⟩
    have h2 := fromHexChar_hexDigit ⟨b.val % 16, by omega⟩
    simp only [] at h1 h2
    have h3 : (Fin.ofNat (b.val / 16 * 16 + b.val % 16) : Fin 256) = b := by
      apply Fin.ext
      simp only [Fin.ofNat, Nat.succ_eq_add_one]
      omega
    simp [hexEncode, hexDecode, h1, h2, ih, h3]

theorem colon_not_mem_hexEncode (k : List (Fin 256)) : ':' ∉ hexEncode k := by
  induction k with
  | nil => simp [hexEncode]
  | cons b bs ih =>
    have h1 := hexDigit_ne_colon ⟨b.val / 16, by omega⟩
    have h2 := hexDigit_ne_colon ⟨b.val % 16, by omega⟩
    simp only [] at h1 h2
    simp [hexEncode, ih, Ne.symm h1, Ne.symm h2]

theorem digitChar_toNat : ∀ m : Fin 10, (Nat.digitChar m.val).toNat = 48 + m.val := by
  decide

theorem digitChar_isDec (m : Nat) (h : m < 10) : isDec (Nat.digitChar m) := by
  have := digitChar_toNat ⟨m, h⟩
  simp only [] at this
  unfold isDec
  omega

theorem toDigitsCore_append (fuel n : Nat) (ds : List Char) :
    Nat.toDigitsCore 10 fuel n ds = Nat.toDigitsCore 10 fuel n [] ++ ds := by
  induction fuel generalizing n ds with
  | zero => simp [Nat.toDigitsCore]
  | succ f ih =>
    simp only [Nat.toDigitsCore]
    split
    · simp
    · rw [ih (n / 10) (Nat.digitChar (n % 10) :: ds), ih (n / 10) [Nat.digitChar (n % 10)]]
      simp

theorem toDigitsCore_isDec (fuel n : Nat) :
    ∀ c ∈ Nat.toDigitsCore 10 fuel n [], isDec c := by
  induction fuel generalizing n with
  | zero => simp [Nat.toDigitsCore]
  | succ f ih =>
    intro c hc
    simp only [Nat.toDigitsCore] at hc
    split at hc
    · simp only [List.mem_singleton] at hc
      subst hc
      exact digitChar_isDec _ (Nat.mod_lt _ (by decide))
    · rw [toDigitsCore_append] at hc
      rcases List.mem_append.mp hc with h | h
      · exact ih _ c h
      · simp only [List.mem_singleton] at h
        subst h
        exact digitChar_isDec _ (Nat.mod_lt _ (by decide))

theorem toDigitsCore_ne_nil (fuel n : Nat) :
    Nat.toDigitsCore 10 (fuel + 1) n [] ≠ [] := by
  simp only [Nat.toDigitsCore]
  split
  · simp
  · rw [toDigitsCore_append]; simp

theorem decVal_append (a b : List Char) (n : Nat) :
    decVal (a ++ b) n = decVal b (decVal a n) := by
  induction a generalizing n with
  | nil => rfl
  | cons c cs ih => simp [decVal, ih]

theorem decVal_toDigitsCore (fuel n : Nat) (h : n < fuel) :
    decVal (Nat.toDigitsCore 10 fuel n []) 0 = n := by
  induction fuel generalizing n with
  | zero => omega
  | succ f ih =>
    simp only [Nat.toDigitsCore]
    have hd := digitChar_toNat ⟨n % 10, Nat.mod_lt _ (by decide)⟩
    simp only [] at hd
    split
    · rename_i h0
      simp only [decVal, hd]
      omega
    · rename_i h0
      rw [toDigitsCore_append, decVal_append, ih (n / 10) (by omega)]
      simp only [decVal, hd]
      omega

theorem le_decVal (cs : List Char) (n : Nat) : n ≤ decVal cs n := by
  induction cs generalizing n with
  | nil => exact Nat.le_refl _
  | cons c cs ih =>
    have := ih (n * 10 + (c.toNat - 48))
    simp only [decVal]
    omega

theorem parseUintLoop_eq_decVal (cs : List Char) (n : Nat)
    (hd : ∀ c ∈ cs, isDec c) (hb : decVal cs n < 2 ^ 64) :
    parseUintLoop cs n = some (decVal cs n) := by
  induction cs generalizing n with
  | nil => rfl
  | cons c cs ih =>
    have hc : 48 ≤ c.toNat ∧ c.toNat ≤ 57 := hd c (by simp)
    have hle := le_decVal cs (n * 10 + (c.toNat - 48))
    simp only [decVal] at hb
    have hn : n * 10 + (c.toNat - 48) < 2 ^ 64 := by omega
    have h64 : (2 : Nat) ^ 64 = 18446744073709551616 := by norm_num
    rw [h64] at hn
    have e1 : n * 10 % 2 ^ 64 = n * 10 := by rw [h64]; omega
    have e2 : (n * 10 + (c.toNat - 48)) % 2 ^ 64 = n * 10 + (c.toNat - 48) := by
      rw [h64]; omega
    have hcut : ¬ (n ≥ (2 ^ 64 - 1) / 10 + 1) := by rw [h64]; omega
    have hov : ¬ (n * 10 + (c.toNat - 48) < n * 10 ∨ n * 10 + (c.toNat - 48) > 2 ^ 64 - 1) := by
      rw [h64]; omega
    simp only [parseUintLoop, hc, and_self, if_true, hcut, if_false, e1, e2, hov, decVal]
    exact ih _ (fun c h => hd c (by simp [h])) hb

theorem isDec_inDecimalDigits (c : Char) (h : isDec c) : inDecimalDigits c = true := by
  unfold isDec at h
  simp [inDecimalDigits, h.1, h.2]

theorem isDec_not_space (c : Char) (h : isDec c) : isSpace c = false ∧ c.toNat ≠ 10 := by
  unfold isDec at h
  refine ⟨?_, by omega⟩
  simp only [isSpace, Bool.or_eq_false_iff, Bool.and_eq_false_iff, decide_eq_false_iff_not,
    beq_eq_false_iff_ne]
  omega

theorem formatDecimal_isDec (p : Nat) : ∀ c ∈ formatDecimal p, isDec c :=
  toDigitsCore_isDec (p + 1) p

theorem formatDecimal_ne_nil (p : Nat) : formatDecimal p ≠ [] :=
  toDigitsCore_ne_nil p p

theorem decVal_formatDecimal (p : Nat) : decVal (formatDecimal p) 0 = p :=
  decVal_toDigitsCore (p + 1) p (Nat.lt_succ_self p)

theorem sscanfUint16_formatDecimal (p : Nat) (hp : p < 65536) :
    sscanfUint16 (formatDecimal p) = some p := by
  have hall := formatDecimal_isDec p
  have hval := decVal_formatDecimal p
  cases hs : formatDecimal p with
  | nil => exact absurd hs (formatDecimal_ne_nil p)
  | cons c cs =>
    rw [hs] at hall hval
    have hc := hall c (by simp)
    have hsp := isDec_not_space c hc
    have htake : (c :: cs).takeWhile inDecimalDigits = c :: cs :=
      List.takeWhile_eq_self_iff.mpr (fun x hx => isDec_inDecimalDigits x (hall x hx))
    have hparse : parseUintLoop (c :: cs) 0 = some p := by
      rw [parseUintLoop_eq_decVal (c :: cs) 0 hall (by rw [hval]; omega), hval]
    have hfit : ¬ (p * 2 ^ 48 % 2 ^ 64 / 2 ^ 48 ≠ p) := by
      norm_num
      omega
    have h1 : skipSpace (c :: cs) = some (c :: cs) := by
      simp [skipSpace, hsp.1, hsp.2]
    have h2 : scanNumber (c :: cs)
        = some (c :: cs, (c :: cs).dropWhile inDecimalDigits) := by
      simp only [scanNumber, isDec_inDecimalDigits c hc, if_true, htake]
    have h3 : parseUint (c :: cs) = some p := by
      simp only [parseUint, hparse]
    simp only [sscanfUint16, scanUint16, h1, h2, h3, hfit, if_false]

theorem colon_not_mem_formatDecimal (p : Nat) : ':' ∉ formatDecimal p := by
  intro h
  have h1 := formatDecimal_isDec p _ h
  have h2 : ¬ isDec ':' := by unfold isDec; decide
  exact h2 h1

theorem formatDecimal_ne_tilde (p : Nat) : formatDecimal p ≠ ['~'] := by
  intro h
  have h1 := formatDecimal_isDec p '~' (by rw [h]; simp)
  have h2 : ¬ isDec '~' := by unfold isDec; decide
  exact h2 h1

/-! ### `filepath.Clean` -/

theorem cleanLoop_nil (rooted : Bool) (f : Nat) (out : List Char) (dd : Nat) :
    cleanLoop rooted f [] out dd = (out, dd) := by
  cases f <;> rfl

theorem dropWhile_notSep_length (l : List Char) :
    (l.dropWhile (fun x => x ≠ '/')).length ≤ l.length := by
  induction l with
  | nil => simp
  | cons a l ih =>
    by_cases h : a = '/'
    · simp [List.dropWhile_cons, h]
    · have : (a :: l).dropWhile (fun x => x ≠ '/') = l.dropWhile (fun x => x ≠ '/') := by
        simp [List.dropWhile_cons, h]
      rw [this]
      exact Nat.le_succ_of_le ih

theorem cleanStep_length (rooted : Bool) (c : Char) (t out : List Char) (dd : Nat) :
    (cleanStep rooted c t out dd).1.length ≤ t.length := by
  unfold cleanStep
  by_cases h1 : c = '/'
  · rw [if_pos h1]
  · rw [if_neg h1]
    by_cases h2 : c = '.' ∧ (t = [] ∨ t.head? = some '/')
    · rw [if_pos h2]
    · rw [if_neg h2]
      by_cases h3 : c = '.' ∧ t.head? = some '.' ∧ (t.tail = [] ∨ t.tail.head? = some '/')
      · rw [if_pos h3]
        split_ifs <;> simp
      · rw [if_neg h3]
        have : (c :: t).dropWhile (fun x => x ≠ '/') = t.dropWhile (fun x => x ≠ '/') := by
          simp [List.dropWhile_cons, h1]
        show ((c :: t).dropWhile (fun x => x ≠ '/')).length ≤ t.length
        rw [this]
        exact dropWhile_notSep_length t

theorem cleanLoop_fuel (rooted : Bool) (f1 f2 : Nat) (rest out : List Char) (dd : Nat)
    (h1 : rest.length ≤ f1) (h2 : rest.length ≤ f2) :
    cleanLoop rooted f1 rest out dd = cleanLoop rooted f2 rest out dd := by
  induction f1 generalizing f2 rest out dd with
  | zero =>
    have : rest = [] := List.length_eq_zero.mp (Nat.le_zero.mp h1)
    subst this
    rw [cleanLoop_nil, cleanLoop_nil]
  | succ f ih =>
    cases rest with
    | nil => rw [cleanLoop_nil, cleanLoop_nil]
    | cons c t =>
      cases f2 with
      | zero => simp at h2
      | succ g =>
        simp only [cleanLoop]
        have hl := cleanStep_length rooted c t out dd
        simp only [List.length_cons] at h1 h2
        exact ih g _ _ _ (by omega) (by omega)

theorem takeWhile_notSep_append (a b : List Char) :
    (a ++ '/' :: b).takeWhile (fun x => x ≠ '/') = a.takeWhile (fun x => x ≠ '/') := by
  induction a with
  | nil => simp [List.takeWhile]
  | cons x a ih =>
    by_cases h : x = '/'
    · simp [List.takeWhile_cons, h]
    · simp only [List.cons_append, List.takeWhile_cons, ih]

theorem dropWhile_notSep_append (a b : List Char) :
    (a ++ '/' :: b).dropWhile (fun x => x ≠ '/')
      = a.dropWhile (fun x => x ≠ '/') ++ '/' :: b := by
  induction a with
  | nil => simp [List.dropWhile]
  | cons x a ih =>
    by_cases h : x = '/'
    · simp [List.dropWhile_cons, h]
    · simp only [List.cons_append, List.dropWhile_cons, ih]
      simp [h]

theorem head_sep_append (t q : List Char) :
    (t ++ '/' :: q = [] ∨ (t ++ '/' :: q).head? = some '/')
      ↔ (t = [] ∨ t.head? = some '/') := by
  cases t <;> simp

theorem cleanStep_append (rooted : Bool) (c : Char) (t q out : List Char) (dd : Nat) :
    cleanStep rooted c (t ++ '/' :: q) out dd
      = ((cleanStep rooted c t out dd).1 ++ '/' :: q,
          (cleanStep rooted c t out dd).2.1, (cleanStep rooted c t out dd).2.2) := by
  have ha := head_sep_append t q
  have hb : ((t ++ '/' :: q).head? = some '.'
        ∧ ((t ++ '/' :: q).tail = [] ∨ (t ++ '/' :: q).tail.head? = some '/'))
      ↔ (t.head? = some '.' ∧ (t.tail = [] ∨ t.tail.head? = some '/')) := by
    cases t with
    | nil => simp
    | cons x t2 =>
      have := head_sep_append t2 q
      simp only [List.cons_append, List.head?_cons, List.tail_cons, this]
  have htail : t.head? = some '.' → (t ++ '/' :: q).tail = t.tail ++ '/' :: q := by
    cases t <;> simp
  have hd := dropWhile_notSep_append (c :: t) q
  have ht := takeWhile_notSep_append (c :: t) q
  simp only [List.cons_append] at hd ht
  unfold cleanStep
  by_cases h1 : c = '/'
  · rw [if_pos h1, if_pos h1]
  · by_cases h2 : c = '.' ∧ (t = [] ∨ t.head? = some '/')
    · have h2q : c = '.' ∧ (t ++ '/' :: q = [] ∨ (t ++ '/' :: q).head? = some '/') :=
        ⟨h2.1, ha.mpr h2.2⟩
      rw [if_neg h1, if_pos h2q, if_neg h1, if_pos h2]
    · have h2q : ¬ (c = '.' ∧ (t ++ '/' :: q = [] ∨ (t ++ '/' :: q).head? = some '/')) :=
        fun h => h2 ⟨h.1, ha.mp h.2⟩
      by_cases h3 : c = '.' ∧ t.head? = some '.' ∧ (t.tail = [] ∨ t.tail.head? = some '/')
      · have h3q : c = '.' ∧ (t ++ '/' :: q).head? = some '.'
            ∧ ((t ++ '/' :: q).tail = [] ∨ (t ++ '/' :: q).tail.head? = some '/') :=
          ⟨h3.1, hb.mpr h3.2⟩
        rw [if_neg h1, if_neg h2q, if_pos h3q, if_neg h1, if_neg h2, if_pos h3,
          htail h3.2.1]
        split_ifs <;> rfl
      · have h3q : ¬ (c = '.' ∧ (t ++ '/' :: q).head? = some '.'
            ∧ ((t ++ '/' :: q).tail = [] ∨ (t ++ '/' :: q).tail.head? = some '/')) :=
          fun h => h3 ⟨h.1, hb.mp h.2⟩
        rw [if_neg h1, if_neg h2q, if_neg h3q, if_neg h1, if_neg h2, if_neg h3]
        simp only [hd, ht]

theorem cleanLoop_append (rooted : Bool) (q : List Char) (f1 : Nat) :
    ∀ (p out : List Char) (dd f : Nat), p.length ≤ f1 → p.length + 1 + q.length ≤ f →
      cleanLoop rooted f (p ++ '/' :: q) out dd
        = cleanLoop rooted (q.length + 1) ('/' :: q)
            (cleanLoop rooted f1 p out dd).1 (cleanLoop rooted f1 p out dd).2 := by
  induction f1 with
  | zero =>
    intro p out dd f h1 h2
    have : p = [] := List.length_eq_zero.mp (Nat.le_zero.mp h1)
    subst this
    have hq : ('/' :: q).length ≤ f := by
      simp only [List.length_cons, List.length_nil] at h2 ⊢
      omega
    rw [cleanLoop_nil]
    exact cleanLoop_fuel rooted _ _ _ _ _ hq (by simp)
  | succ g ih =>
    intro p out dd f h1 h2
    cases p with
    | nil =>
      have hq : ('/' :: q).length ≤ f := by
        simp only [List.length_cons, List.length_nil] at h2 ⊢
        omega
      rw [cleanLoop_nil]
      exact cleanLoop_fuel rooted _ _ _ _ _ hq (by simp)
    | cons c t =>
      cases f with
      | zero => simp at h2
      | succ f0 =>
        have hl := cleanStep_length rooted c t out dd
        simp only [List.length_cons] at h1 h2
        have e1 : cleanLoop rooted (f0 + 1) (c :: t ++ '/' :: q) out dd
            = cleanLoop rooted f0 ((cleanStep rooted c t out dd).1 ++ '/' :: q)
                (cleanStep rooted c t out dd).2.1 (cleanStep rooted c t out dd).2.2 := by
          show cleanLoop rooted (f0 + 1) (c :: (t ++ '/' :: q)) out dd = _
          rw [cleanLoop, cleanStep_append]
        have e2 : cleanLoop rooted (g + 1) (c :: t) out dd
            = cleanLoop rooted g (cleanStep rooted c t out dd).1
                (cleanStep rooted c t out dd).2.1 (cleanStep rooted c t out dd).2.2 := by
          rw [cleanLoop]
        rw [e1, e2]
        exact ih (cleanStep rooted c t out dd).1 _ _ f0 (by omega) (by omega)

theorem takeWhile_notSep_self (e : List Char) (h : '/' ∉ e) :
    e.takeWhile (fun x => x ≠ '/') = e := by
  apply List.takeWhile_eq_self_iff.mpr
  intro x hx
  have : x ≠ '/' := fun hc => h (hc ▸ hx)
  simpa using this

theorem dropWhile_notSep_nil (e : List Char) (h : '/' ∉ e) :
    e.dropWhile (fun x => x ≠ '/') = [] := by
  apply List.dropWhile_eq_nil_iff.mpr
  intro x hx
  have : x ≠ '/' := fun hc => h (hc ▸ hx)
  simpa using this

theorem cleanStep_ordinary (rooted : Bool) (x : Char) (e2 out : List Char) (dd : Nat)
    (he : OrdinaryElem (x :: e2)) :
    cleanStep rooted x e2 out dd
      = ([], (if (rooted = true ∧ out.length ≠ 1) ∨ (rooted = false ∧ out.length ≠ 0)
              then out ++ ['/'] else out) ++ x :: e2, dd) := by
  obtain ⟨_, hs, hd1, hd2⟩ := he
  have h1 : x ≠ '/' := fun h => hs (by simp [h])
  have hs2 : '/' ∉ e2 := fun h => hs (by simp [h])
  have h2 : ¬ (x = '.' ∧ (e2 = [] ∨ e2.head? = some '/')) := by
    rintro ⟨hx, h | h⟩
    · exact hd1 (by rw [hx, h])
    · cases e2 with
      | nil => simp at h
      | cons y e3 => simp at h; exact hs2 (by simp [h])
  have h3 : ¬ (x = '.' ∧ e2.head? = some '.' ∧ (e2.tail = [] ∨ e2.tail.head? = some '/')) := by
    rintro ⟨hx, hh, ht⟩
    cases e2 with
    | nil => simp at hh
    | cons y e3 =>
      simp only [List.head?_cons, Option.some.injEq] at hh
      simp only [List.tail_cons] at ht
      rcases ht with h | h
      · exact hd2 (by rw [hx, hh, h])
      · cases e3 with
        | nil => simp at h
        | cons z e4 => simp at h; exact hs2 (by simp [h])
  unfold cleanStep
  rw [if_neg h1, if_neg h2, if_neg h3, takeWhile_notSep_self _ hs, dropWhile_notSep_nil _ hs]

theorem cleanLoop_sep_ordinary (rooted : Bool) (e out : List Char) (dd : Nat)
    (he : OrdinaryElem e) :
    cleanLoop rooted (e.length + 1) ('/' :: e) out dd
      = ((if (rooted = true ∧ out.length ≠ 1) ∨ (rooted = false ∧ out.length ≠ 0)
            then out ++ ['/'] else out) ++ e, dd) := by
  cases e with
  | nil => exact absurd rfl he.1
  | cons x e2 =>
    have hstep : cleanStep rooted '/' (x :: e2) out dd = (x :: e2, out, dd) := by
      unfold cleanStep
      rw [if_pos rfl]
    rw [cleanLoop, hstep]
    show cleanLoop rooted (e2.length + 1) (x :: e2) out dd = _
    rw [cleanLoop, cleanStep_ordinary rooted x e2 out dd he, cleanLoop_nil]

theorem Clean_append_ordinary (p e : List Char) (hp : Clean p = p) (hdot : p ≠ ['.'])
    (hroot : p ≠ ['/']) (he : OrdinaryElem e) :
    Clean (p ++ '/' :: e) = p ++ '/' :: e := by
  cases p with
  | nil => simp [Clean] at hp
  | cons c t =>
    by_cases hc : c = '/'
    · subst hc
      have hp2 : (if (cleanLoop true (t.length + 1) t ['/'] 1).1.length = 0 then ['.']
          else (cleanLoop true (t.length + 1) t ['/'] 1).1) = '/' :: t := by
        simpa [Clean] using hp
      have hS : (cleanLoop true (t.length + 1) t ['/'] 1).1 = '/' :: t := by
        split_ifs at hp2 with h0
        · simp at hp2
        · exact hp2
      have ht : t ≠ [] := fun h => hroot (by rw [h])
      have hlen : ('/' :: t).length ≠ 1 := by
        cases t with
        | nil => exact absurd rfl ht
        | cons y t2 => simp
      have hrun := cleanLoop_append true e (t.length + 1) t ['/'] 1
        (('/' :: t) ++ '/' :: e).length (Nat.le_succ _)
        (by simp only [List.length_cons, List.length_append]; omega)
      rw [cleanLoop_sep_ordinary true e _ _ he, hS] at hrun
      have hif : (true = true ∧ ('/' :: t).length ≠ 1) ∨ (true = false ∧ ('/' :: t).length ≠ 0) :=
        Or.inl ⟨rfl, hlen⟩
      rw [if_pos hif] at hrun
      show Clean ('/' :: (t ++ '/' :: e)) = _
      simp only [Clean, decide_True, if_true]
      have hrun2 : (cleanLoop true (t ++ '/' :: e).length.succ (t ++ '/' :: e) ['/'] 1).1
          = '/' :: t ++ ['/'] ++ e := by
        have := congrArg Prod.fst hrun
        simpa using this
      simp only [List.length_cons, Nat.succ_eq_add_one] at hrun2 ⊢
      rw [hrun2]
      simp
    · have hp2 : (if (cleanLoop false (t.length + 1) (c :: t) [] 0).1.length = 0 then ['.']
          else (cleanLoop false (t.length + 1) (c :: t) [] 0).1) = c :: t := by
        simpa [Clean, hc] using hp
      have hS : (cleanLoop false (t.length + 1) (c :: t) [] 0).1 = c :: t := by
        split_ifs at hp2 with h0
        · exact absurd hp2.symm hdot
        · exact hp2
      have hrun := cleanLoop_append false e (t.length + 1) (c :: t) [] 0
        ((c :: t) ++ '/' :: e).length (by simp)
        (by simp only [List.length_cons, List.length_append]; omega)
      rw [cleanLoop_sep_ordinary false e _ _ he, hS] at hrun
      have hif : (false = true ∧ (c :: t).length ≠ 1) ∨ (false = false ∧ (c :: t).length ≠ 0) :=
        Or.inr ⟨rfl, by simp⟩
      rw [if_pos hif] at hrun
      show Clean (c :: (t ++ '/' :: e)) = _
      simp only [Clean, hc, decide_False, Bool.false_eq_true, if_false]
      have hrun2 : (cleanLoop false (c :: (t ++ '/' :: e)).length (c :: (t ++ '/' :: e)) [] 0).1
          = c :: t ++ ['/'] ++ e := by
        have := congrArg Prod.fst hrun
        simpa using this
      rw [hrun2]
      simp

theorem ordinary_name_version (name ver : List Char) (hn : '/' ∉ name) (hv : '/' ∉ ver) :
    OrdinaryElem (name ++ ['.', 'v'] ++ ver) := by
  have hmem : 'v' ∈ name ++ ['.', 'v'] ++ ver := by simp
  refine ⟨?_, ?_, ?_, ?_⟩
  · intro h; rw [h] at hmem; simp at hmem
  · intro h
    simp only [List.mem_append, List.mem_cons, List.mem_singleton, List.not_mem_nil,
      or_false] at h
    rcases h with (h | h | h) | h
    · exact hn h
    · exact absurd h (by decide)
    · exact absurd h (by decide)
    · exact hv h
  · intro h; rw [h] at hmem
    simp only [List.mem_singleton] at hmem
    exact absurd hmem (by decide)
  · intro h; rw [h] at hmem
    simp only [List.mem_cons, List.mem_singleton, List.not_mem_nil, or_false, or_self] at hmem
    exact absurd hmem (by decide)

end GoStd

/-! ## Lemmas on `disassembleAddr` -/

namespace network

open GoStd cipher

theorem Set_Hex (verify : PubKey → Bool) (k : PubKey) (hk : PubKey.Valid verify k) :
    PubKey.Set verify k.Hex = some k := by
  simp [PubKey.Set, PubKey.Hex, hexDecode_hexEncode, hk.1, hk.2]

theorem disassembleAddr_port (verify : PubKey → Bool) (k : PubKey) (p : Nat)
    (hk : PubKey.Valid verify k) (hp : p < 65536) :
    disassembleAddr verify (k.Hex ++ ':' :: formatDecimal p) = Result.ok (k, p) := by
  unfold disassembleAddr PubKey.Hex
  rw [split_two ':' _ _ (colon_not_mem_hexEncode k) (colon_not_mem_formatDecimal p)]
  have hset := Set_Hex verify k hk
  unfold PubKey.Hex at hset
  simp only [hset, sscanfUint16_formatDecimal p hp]
  rw [if_pos (formatDecimal_ne_tilde p)]

theorem disassembleAddr_sentinel (verify : PubKey → Bool) (k : PubKey)
    (hk : PubKey.Valid verify k) :
    disassembleAddr verify (k.Hex ++ [':', '~']) = Result.ok (k, 0) := by
  unfold disassembleAddr PubKey.Hex
  rw [split_two ':' _ ['~'] (colon_not_mem_hexEncode k) (by decide)]
  have hset := Set_Hex verify k hk
  unfold PubKey.Hex at hset
  simp only [hset]
  rw [if_neg (by simp)]

theorem segments_of_one_colon (addr : List Char) (h : addr.count ':' = 1) :
    ∃ a b, addr = a ++ ':' :: b ∧ ':' ∉ a ∧ ':' ∉ b ∧
      keySegment addr = a ∧ portSegment addr = b := by
  induction addr with
  | nil => simp at h
  | cons c t ih =>
    by_cases hc : c = ':'
    · subst hc
      have h0 : t.count ':' = 0 := by simpa using h
      refine ⟨[], t, rfl, by simp, List.count_eq_zero.mp h0, ?_, ?_⟩
      · simp [keySegment, List.takeWhile_cons]
      · simp [portSegment, List.dropWhile_cons]
    · have hc2 : (c == ':') = false := by simpa using hc
      have h1 : t.count ':' = 1 := by simpa [List.count_cons, hc2] using h
      obtain ⟨a, b, hab, ha, hb, hk, hp⟩ := ih h1
      refine ⟨c :: a, b, by rw [hab]; rfl, ?_, hb, ?_, ?_⟩
      · intro hm
        rcases List.mem_cons.mp hm with h2 | h2
        · exact hc h2.symm
        · exact ha h2
      · have e : keySegment (c :: t) = c :: keySegment t := by
          simp [keySegment, List.takeWhile_cons, hc]
        rw [e, hk]
      · have e : portSegment (c :: t) = portSegment t := by
          simp [portSegment, List.dropWhile_cons, hc]
        rw [e, hp]

theorem split_segments (addr : List Char) (h : addr.count ':' = 1) :
    split ':' addr = [keySegment addr, portSegment addr] := by
  obtain ⟨a, b, hab, ha, hb, hk, hp⟩ := segments_of_one_colon addr h
  rw [hk, hp, hab]
  exact split_two ':' a b ha hb

theorem skipSpace_eq (s : List Char) :
    skipSpace s = (match dropBlanks s with
      | [] => some []
      | c :: r => if c.toNat = 10 then none else some (c :: r)) := by
  induction s with
  | nil => rfl
  | cons r rest ih =>
    by_cases h10 : r.toNat = 10
    · have hd : dropBlanks (r :: rest) = r :: rest := by
        simp [dropBlanks, List.dropWhile_cons, h10]
      rw [hd]
      simp [skipSpace, h10]
    · by_cases hsp : isSpace r = true
      · have hd : dropBlanks (r :: rest) = dropBlanks rest := by
          simp [dropBlanks, List.dropWhile_cons, h10, hsp]
        rw [hd, ← ih]
        simp [skipSpace, h10, hsp]
      · have hd : dropBlanks (r :: rest) = r :: rest := by
          simp [dropBlanks, List.dropWhile_cons, hsp]
        rw [hd]
        simp [skipSpace, h10, hsp]

theorem inDecimalDigits_isDec (c : Char) (h : inDecimalDigits c = true) : isDec c := by
  simpa [inDecimalDigits, isDec] using h

theorem parseUintLoop_overflow (cs : List Char) (n : Nat)
    (hd : ∀ c ∈ cs, isDec c) (hn : n < 2 ^ 64) (hb : ¬ decVal cs n < 2 ^ 64) :
    parseUintLoop cs n = none := by
  induction cs generalizing n with
  | nil => exact absurd hn hb
  | cons c cs ih =>
    have hc : 48 ≤ c.toNat ∧ c.toNat ≤ 57 := hd c (by simp)
    have h64 : (2 : Nat) ^ 64 = 18446744073709551616 := by norm_num
    simp only [decVal] at hb
    by_cases hcut : n ≥ (2 ^ 64 - 1) / 10 + 1
    · simp only [parseUintLoop, hc, and_self, if_true, hcut]
    · have hcut2 : n ≤ 1844674407370955161 := by rw [h64] at hcut; omega
      have e1 : n * 10 % 2 ^ 64 = n * 10 := by rw [h64]; omega
      by_cases hov : n * 10 + (c.toNat - 48) < 2 ^ 64
      · have e2 : (n * 10 + (c.toNat - 48)) % 2 ^ 64 = n * 10 + (c.toNat - 48) := by
          rw [h64] at hov ⊢; omega
        have hno : ¬ (n * 10 + (c.toNat - 48) < n * 10
            ∨ n * 10 + (c.toNat - 48) > 2 ^ 64 - 1) := by
          rw [h64] at hov ⊢; omega
        simp only [parseUintLoop, hc, and_self, if_true, hcut, if_false, e1, e2, hno]
        exact ih _ (fun c h => hd c (by simp [h])) hov hb
      · have hwrap : (n * 10 + (c.toNat - 48)) % 2 ^ 64 < n * 10 := by
          rw [h64] at hov ⊢; omega
        simp only [parseUintLoop, hc, and_self, if_true, hcut, if_false, e1, hwrap, true_or]

theorem scanUint16_digits (tok : List Char) (hne : tok ≠ []) (hd : ∀ c ∈ tok, isDec c) :
    (match parseUint tok with
      | none => none
      | some i => if (i * 2 ^ 48 % 2 ^ 64) / 2 ^ 48 ≠ i then none else some i)
      = if decVal tok 0 < 65536 then some (decVal tok 0) else none := by
  have hp : parseUint tok = parseUintLoop tok 0 := by
    cases tok with
    | nil => exact absurd rfl hne
    | cons c cs => rfl
  rw [hp]
  by_cases hb : decVal tok 0 < 2 ^ 64
  · rw [parseUintLoop_eq_decVal tok 0 hd hb]
    have h64 : (2 : Nat) ^ 64 = 18446744073709551616 := by norm_num
    have h48 : (2 : Nat) ^ 48 = 281474976710656 := by norm_num
    rw [h64] at hb
    by_cases h16 : decVal tok 0 < 65536
    · have hfit : ¬ (decVal tok 0 * 2 ^ 48 % 2 ^ 64 / 2 ^ 48 ≠ decVal tok 0) := by
        rw [h64, h48]; omega
      show (if decVal tok 0 * 2 ^ 48 % 2 ^ 64 / 2 ^ 48 ≠ decVal tok 0 then none
        else some (decVal tok 0)) = _
      rw [if_neg hfit, if_pos h16]
    · have hfit : decVal tok 0 * 2 ^ 48 % 2 ^ 64 / 2 ^ 48 ≠ decVal tok 0 := by
        rw [h64, h48]; omega
      show (if decVal tok 0 * 2 ^ 48 % 2 ^ 64 / 2 ^ 48 ≠ decVal tok 0 then none
        else some (decVal tok 0)) = _
      rw [if_pos hfit, if_neg h16]
  · rw [parseUintLoop_overflow tok 0 hd (by norm_num) hb]
    have h16 : ¬ decVal tok 0 < 65536 := fun h => hb (Nat.lt_trans h (by norm_num))
    simp only [h16, if_false]

theorem sscanfUint16_eq (s : List Char) :
    sscanfUint16 s
      = if startsWithPort s = true then some (decVal (leadingNumber s) 0) else none := by
  unfold sscanfUint16 scanUint16 startsWithPort leadingNumber
  rw [skipSpace_eq]
  cases hdb : dropBlanks s with
  | nil => simp [scanNumber]
  | cons c r =>
    by_cases h10 : c.toNat = 10
    · have hnd : inDecimalDigits c = false := by simp [inDecimalDigits, h10]
      simp [h10, List.takeWhile_cons, hnd]
    · by_cases hin : inDecimalDigits c = true
      · have htok : (c :: r).takeWhile inDecimalDigits
            = c :: r.takeWhile inDecimalDigits := by
          simp [List.takeWhile_cons, hin]
        have hall : ∀ x ∈ c :: r.takeWhile inDecimalDigits, isDec x := by
          intro x hx
          rw [← htok] at hx
          exact inDecimalDigits_isDec x (List.mem_takeWhile_imp hx)
        have hdig := scanUint16_digits (c :: r.takeWhile inDecimalDigits) (by simp) hall
        simp only [h10, if_false, scanNumber, hin, if_true, htok, hdig]
        simp
      · have hnd : inDecimalDigits c = false := by simpa using hin
        simp [h10, scanNumber, hnd, List.takeWhile_cons]

theorem disassembleAddr_panic_iff (verify : PubKey → Bool) (addr : List Char) :
    disassembleAddr verify addr = Result.panic ↔ Malformed verify addr := by
  by_cases hcount : addr.count ':' = 1
  · unfold disassembleAddr Malformed
    rw [split_segments addr hcount]
    simp only []
    cases hset : PubKey.Set verify (keySegment addr) with
    | none => simp
    | some pk =>
      by_cases htilde : portSegment addr = ['~']
      · simp [hcount, htilde]
      · have hne : portSegment addr ≠ ['~'] := htilde
        simp only [if_pos hne, sscanfUint16_eq]
        cases hsp : startsWithPort (portSegment addr) <;> simp [hcount, htilde]
  · have hlen : (split ':' addr).length ≠ 2 := by
      rw [split_length]
      omega
    have hp : disassembleAddr verify addr = Result.panic := by
      unfold disassembleAddr
      split
      · rename_i s0 s1 heq
        rw [heq] at hlen
        exact absurd rfl hlen
      · rfl
    exact ⟨fun _ => Or.inl hcount, fun _ => hp⟩

end network

/-! ## The properties of the specification -/

open GoStd cipher

/-- C1: for every network string other than `dmsg`, every public key and every
port, `Network.Dial` and `Network.Listen` return no connection, respectively no
listener, together with `ErrUnknownNetwork`, and leave the world as it was: the
state of the transport and the record of calls on the dmsg client are
unchanged, so neither its `Dial` nor its `Listen` has been called. -/
theorem dial_listen_unknown_network {σ : Type} (verify : PubKey → Bool)
    (n : network.Network σ) (net : List Char) (pk : PubKey) (port : Nat)
    (w : network.World σ) (h : net ≠ network.DmsgNet) :
    n.Dial verify net pk port w
        = (network.Result.ok (none, some network.Error.ErrUnknownNetwork), w)
      ∧ n.Listen verify net port w
        = (network.Result.ok (none, some network.Error.ErrUnknownNetwork), w)
      ∧ (n.Dial verify net pk port w).2.calls = w.calls
      ∧ (n.Listen verify net port w).2.calls = w.calls := by
  simp [network.Network.Dial, network.Network.Listen, h]

/-- Witness of C1: the network string `tcp` on a client that would serve any call. -/
theorem dial_listen_unknown_network_witness :
    "tcp".toList ≠ network.DmsgNet
      ∧ Sample.net.Dial Sample.acceptsGenerator "tcp".toList Sample.generatorKey 45 ⟨0, []⟩
          = (network.Result.ok (none, some network.Error.ErrUnknownNetwork), ⟨0, []⟩)
      ∧ Sample.net.Listen Sample.acceptsGenerator "tcp".toList 45 ⟨0, []⟩
          = (network.Result.ok (none, some network.Error.ErrUnknownNetwork), ⟨0, []⟩)
      ∧ (Sample.net.Dial Sample.acceptsGenerator "tcp".toList Sample.generatorKey 45
          ⟨0, []⟩).2.calls = []
      ∧ (Sample.net.Listen Sample.acceptsGenerator "tcp".toList 45 ⟨0, []⟩).2.calls = [] :=
  ⟨by decide,
    dial_listen_unknown_network Sample.acceptsGenerator Sample.net "tcp".toList
      Sample.generatorKey 45 ⟨0, []⟩ (by decide)⟩

/-- C2: address round trip. For every valid public key `k` and every 16-bit
port `p`, `disassembleAddr` on the text `<hex of k>:<p in base 10>` does not
panic and returns exactly the pair `(k, p)`. -/
theorem disassembleAddr_round_trip (verify : PubKey → Bool) (k : PubKey) (p : Nat)
    (hk : PubKey.Valid verify k) (hp : p < 65536) :
    network.disassembleAddr verify (k.Hex ++ [':'] ++ formatDecimal p)
      = network.Result.ok (k, p) := by
  have := network.disassembleAddr_port verify k p hk hp
  simpa using this

/-- Witness of C2: the generator key and port 45. -/
theorem disassembleAddr_round_trip_witness :
    PubKey.Valid Sample.acceptsGenerator Sample.generatorKey ∧ 45 < 65536
      ∧ network.disassembleAddr Sample.acceptsGenerator
          (Sample.generatorKey.Hex ++ [':'] ++ formatDecimal 45)
        = network.Result.ok (Sample.generatorKey, 45) :=
  ⟨by decide, by decide,
    disassembleAddr_round_trip Sample.acceptsGenerator Sample.generatorKey 45
      (by decide) (by decide)⟩

/-- C3 as stated fails: the text `<hex of the generator key>:12abc` is
malformed in the words of the specification (its port segment is digits
followed by other characters, not a base-10 integer), yet `disassembleAddr`
does not panic on it and returns the key with port 12. -/
theorem disassembleAddr_trailing_garbage_accepted :
    network.MalformedSpec Sample.acceptsGenerator (Sample.generatorHex ++ ":12abc".toList)
      ∧ network.disassembleAddr Sample.acceptsGenerator
          (Sample.generatorHex ++ ":12abc".toList)
        = network.Result.ok (Sample.generatorKey, 12) := by
  decide

/-- C3, amended: `disassembleAddr` panics on every malformed address text, and
only on those, where a text is malformed when it has zero or at least two
`:`, or its key segment is not a valid public key, or its port segment is not
`~` and does not begin, after leading spaces other than a newline, with a run
of decimal digits of value at most 65535. An empty or non-numeric port
segment and a number above 65535 are malformed; digits in range followed by
other characters are not. -/
theorem disassembleAddr_panics_iff_malformed (verify : PubKey → Bool) (addr : List Char) :
    network.disassembleAddr verify addr = network.Result.panic
      ↔ network.Malformed verify addr :=
  network.disassembleAddr_panic_iff verify addr

/-- C4 as stated fails: on a connection whose release callback counts the
releases, two calls of `Close` in sequence invoke the callback twice, not
once: two `freeConn` events are recorded and the counter ends at 2. -/
theorem close_twice_releases_twice :
    ((Sample.conn.Close ⟨0, []⟩).2.1.Close (Sample.conn.Close ⟨0, []⟩).2.2).2.2.trace
        = [app2.Event.rpcCloseConn 7, app2.Event.freeConn,
           app2.Event.rpcCloseConn 7, app2.Event.freeConn]
      ∧ ((Sample.conn.Close ⟨0, []⟩).2.1.Close
          (Sample.conn.Close ⟨0, []⟩).2.2).2.2.trace.count app2.Event.freeConn ≠ 1
      ∧ ((Sample.conn.Close ⟨0, []⟩).2.1.Close (Sample.conn.Close ⟨0, []⟩).2.2).2.2.state
        = 2 := by
  decide

/-- C4, amended: `Close` has no once-only guard. For every connection with a
non-nil release callback and every behaviour of the RPC stub, two calls of
`Close` in sequence both return (no panic), call `CloseConn` twice and invoke
the release callback exactly twice, once per call, each time after that
call's `CloseConn`. -/
theorem close_twice_releases_once_per_call {σ : Type} (c : app2.Conn σ) (w : app2.World σ)
    (f : σ → σ) (hf : c.freeConn = some f) :
    ((c.Close w).2.1.Close (c.Close w).2.2).2.2.trace
        = w.trace ++ [app2.Event.rpcCloseConn c.id, app2.Event.freeConn,
                      app2.Event.rpcCloseConn c.id, app2.Event.freeConn]
      ∧ ((c.Close w).2.1.Close (c.Close w).2.2).2.2.trace.count app2.Event.freeConn
        = w.trace.count app2.Event.freeConn + 2
      ∧ ((c.Close w).2.1.Close (c.Close w).2.2).2.2.state
        = f (c.rpc.CloseConn c.id (f (c.rpc.CloseConn c.id w.state).2)).2
      ∧ (c.Close w).1 = (c.rpc.CloseConn c.id w.state).1
      ∧ ((c.Close w).2.1.Close (c.Close w).2.2).1
        = (c.rpc.CloseConn c.id (f (c.rpc.CloseConn c.id w.state).2)).1 := by
  simp [app2.Conn.Close, hf, List.count_append, List.count_cons]

/-- Witness of C4, amended: the connection whose callback counts the releases. -/
theorem close_twice_releases_once_per_call_witness :
    Sample.conn.freeConn = some (fun st => st + 1)
      ∧ ((Sample.conn.Close ⟨0, []⟩).2.1.Close
          (Sample.conn.Close ⟨0, []⟩).2.2).2.2.trace.count app2.Event.freeConn
        = List.count app2.Event.freeConn [] + 2 :=
  ⟨rfl, (close_twice_releases_once_per_call Sample.conn ⟨0, []⟩ (fun st => st + 1) rfl).2.1⟩

/-- C5: a single call of `Close` on a connection with id `i` calls the stub's
`CloseConn` exactly once, with `i`, and returns exactly what `CloseConn`
returned; when the release callback is not nil it is invoked exactly once,
after `CloseConn`, whatever `CloseConn` returned; when it is nil nothing else is
invoked. `Close` always returns, and the connection itself is unchanged. -/
theorem close_once {σ : Type} (c : app2.Conn σ) (w : app2.World σ) :
    (c.Close w).1 = (c.rpc.CloseConn c.id w.state).1
      ∧ (c.Close w).2.1 = c
      ∧ (∀ f, c.freeConn = some f →
          (c.Close w).2.2.trace
              = w.trace ++ [app2.Event.rpcCloseConn c.id, app2.Event.freeConn]
            ∧ (c.Close w).2.2.state = f (c.rpc.CloseConn c.id w.state).2)
      ∧ (c.freeConn = none →
          (c.Close w).2.2.trace = w.trace ++ [app2.Event.rpcCloseConn c.id]
            ∧ (c.Close w).2.2.state = (c.rpc.CloseConn c.id w.state).2) := by
  cases hf : c.freeConn <;> simp [app2.Conn.Close, hf]

/-- C6: if the child process fails to start or exits with an error `e`,
`Proc.Run` closes the RPC server after the child has ended and before it
returns, and returns exactly `e`; an error from closing the RPC server is
logged and does not change the result. -/
theorem run_failure_closes_rpc_server {σ : Type} (p : appserver.Proc σ)
    (w : appserver.World σ) (e : appserver.Error) (h : (p.cmdRun w.state).1 = some e) :
    (p.Run w).1 = some e
      ∧ (p.Run w).2.state = (p.rpcSClose (p.cmdRun w.state).2).2
      ∧ (p.Run w).2.trace
        = w.trace ++ [appserver.Event.goListenAndServe, appserver.Event.cmdRun,
                      appserver.Event.rpcClose]
          ++ (match (p.rpcSClose (p.cmdRun w.state).2).1 with
              | some ce =>
                [appserver.Event.logError "error closing RPC server".toList ce]
              | none => []) := by
  cases hc : (p.rpcSClose (p.cmdRun w.state).2).1 <;>
    simp [appserver.Proc.Run, appserver.Proc.closeRPCServer, h, hc]

/-- Witness of C6: a binary that fails to start, with an RPC server whose
`Close` fails too. -/
theorem run_failure_closes_rpc_server_witness :
    (Sample.procFailsToStart.cmdRun false).1 = some ⟨"exec: not found".toList⟩
      ∧ (Sample.procFailsToStart.Run ⟨false, []⟩).1 = some ⟨"exec: not found".toList⟩
      ∧ (Sample.procFailsToStart.Run ⟨false, []⟩).2.state = true :=
  ⟨rfl,
    (run_failure_closes_rpc_server Sample.procFailsToStart ⟨false, []⟩
      ⟨"exec: not found".toList⟩ rfl).1,
    (run_failure_closes_rpc_server Sample.procFailsToStart ⟨false, []⟩
      ⟨"exec: not found".toList⟩ rfl).2.1⟩

/-- C7 as stated fails: on a binary that exits with status 0, `Run` returns nil
but has not closed the RPC server: no `Close` is recorded and the server
state is still open. -/
theorem run_success_leaves_rpc_server_open :
    (Sample.procExitsZero.Run ⟨false, []⟩).1 = none
      ∧ appserver.Event.rpcClose ∉ (Sample.procExitsZero.Run ⟨false, []⟩).2.trace
      ∧ (Sample.procExitsZero.Run ⟨false, []⟩).2.state = false := by
  decide

/-- C7, amended: when the child process runs and exits with status 0,
`Proc.Run` returns nil, and `Run` makes no call of `Close` on the RPC server
before it returns: all it does is start the goroutine of `ListenAndServe` and
run the child, and the state it returns is the one the child's run left. -/
theorem run_success_returns_nil {σ : Type} (p : appserver.Proc σ) (w : appserver.World σ)
    (h : (p.cmdRun w.state).1 = none) :
    (p.Run w).1 = none
      ∧ (p.Run w).2.state = (p.cmdRun w.state).2
      ∧ (p.Run w).2.trace
        = w.trace ++ [appserver.Event.goListenAndServe, appserver.Event.cmdRun] := by
  simp [appserver.Proc.Run, h]

/-- Witness of C7, amended: the binary that exits with status 0. -/
theorem run_success_returns_nil_witness :
    (Sample.procExitsZero.cmdRun false).1 = none
      ∧ (Sample.procExitsZero.Run ⟨false, []⟩).1 = none
      ∧ (Sample.procExitsZero.Run ⟨false, []⟩).2.trace
        = [appserver.Event.goListenAndServe, appserver.Event.cmdRun] :=
  ⟨rfl, (run_success_returns_nil Sample.procExitsZero ⟨false, []⟩ rfl).1,
    (run_success_returns_nil Sample.procExitsZero ⟨false, []⟩ rfl).2.2⟩

/-- C8 as stated fails: with the binary directory `/usr/bin/`, `getBinaryPath`
is `/usr/bin/echo.v1`, not the concatenation `/usr/bin/` + `/` + `echo` + `.v`
+ `1`: `filepath.Join` cleans the path and removes the doubled separator. -/
theorem getBinaryPath_cleans_directory :
    appserver.getBinaryPath "/usr/bin/".toList "echo".toList "1".toList
        = "/usr/bin/echo.v1".toList
      ∧ appserver.getBinaryPath "/usr/bin/".toList "echo".toList "1".toList
        ≠ "/usr/bin/".toList ++ "/".toList ++ "echo".toList ++ ".v".toList ++ "1".toList := by
  decide

/-- C8, amended: for every binary directory `dir` that is already in clean
form (`filepath.Clean dir = dir`) and is neither `.` nor `/`, and every name
and version without a separator, `getBinaryPath dir name version` is exactly
`dir + "/" + name + ".v" + version`. -/
theorem getBinaryPath_exact (dir name ver : List Char) (hclean : Clean dir = dir)
    (hdot : dir ≠ ['.']) (hroot : dir ≠ ['/']) (hn : '/' ∉ name) (hv : '/' ∉ ver) :
    appserver.getBinaryPath dir name ver = dir ++ ['/'] ++ name ++ ['.', 'v'] ++ ver := by
  have hne : dir ≠ [] := by
    intro h
    rw [h] at hclean
    simp [Clean] at hclean
  have hc := Clean_append_ordinary dir (name ++ ['.', 'v'] ++ ver) hclean hdot hroot
    (ordinary_name_version name ver hn hv)
  have hj : stringsJoin [dir, name ++ ['.', 'v'] ++ ver] ['/']
      = dir ++ '/' :: (name ++ ['.', 'v'] ++ ver) := by
    simp [stringsJoin, List.intercalate]
  unfold appserver.getBinaryPath
  rw [Join, if_pos hne, hj, hc]
  simp

/-- Witness of C8, amended: the directory `/bin_under_test`, name `echo`,
version `1`. -/
theorem getBinaryPath_exact_witness :
    Clean "/bin_under_test".toList = "/bin_under_test".toList
      ∧ appserver.getBinaryPath "/bin_under_test".toList "echo".toList "1".toList
        = "/bin_under_test".toList ++ ['/'] ++ "echo".toList ++ ['.', 'v'] ++ "1".toList :=
  ⟨by decide,
    getBinaryPath_exact "/bin_under_test".toList "echo".toList "1".toList
      (by decide) (by decide) (by decide) (by decide) (by decide)⟩

/-- C9: for every connection and every time value, `SetDeadline`,
`SetReadDeadline` and `SetWriteDeadline` each return the fixed not-implemented
error, never nil, record no call (the world is unchanged) and leave the
connection unchanged, so that a following `Read` or `Write` forwards to the
stub with the same connection id and gives what it gave without the setter. -/
theorem deadline_setters_not_implemented {σ : Type} (c : app2.Conn σ) (t : Int)
    (w : app2.World σ) (b : List (Fin 256)) :
    c.SetDeadline t w = (some app2.Error.errMethodNotImplemented, c, w)
      ∧ c.SetReadDeadline t w = (some app2.Error.errMethodNotImplemented, c, w)
      ∧ c.SetWriteDeadline t w = (some app2.Error.errMethodNotImplemented, c, w)
      ∧ (c.SetDeadline t w).1 ≠ none
      ∧ (c.SetReadDeadline t w).1 ≠ none
      ∧ (c.SetWriteDeadline t w).1 ≠ none
      ∧ (c.SetDeadline t w).2.1.Read b (c.SetDeadline t w).2.2 = c.Read b w
      ∧ (c.SetReadDeadline t w).2.1.Read b (c.SetReadDeadline t w).2.2 = c.Read b w
      ∧ (c.SetWriteDeadline t w).2.1.Write b (c.SetWriteDeadline t w).2.2 = c.Write b w
      ∧ ((c.SetDeadline t w).2.1.Read b (c.SetDeadline t w).2.2).2.2.2.trace
        = w.trace ++ [app2.Event.rpcRead c.id b]
      ∧ ((c.SetDeadline t w).2.1.Write b (c.SetDeadline t w).2.2).2.2.trace
        = w.trace ++ [app2.Event.rpcWrite c.id b] := by
  refine ⟨rfl, rfl, rfl, by simp [app2.Conn.SetDeadline],
    by simp [app2.Conn.SetReadDeadline], by simp [app2.Conn.SetWriteDeadline],
    rfl, rfl, rfl, ?_, rfl⟩
  simp only [app2.Conn.SetDeadline, app2.Conn.Read]
  split <;> rfl

/-- C10 as stated fails: for the generator key, decoding the sentinel form
`<hex>:~` gives the same result as decoding `<hex>:0`, namely the key with
port 0; the result carries no marker that tells the two apart. -/
theorem sentinel_same_as_port_zero :
    network.disassembleAddr Sample.acceptsGenerator (Sample.generatorHex ++ ":~".toList)
        = network.disassembleAddr Sample.acceptsGenerator
            (Sample.generatorHex ++ ":0".toList)
      ∧ network.disassembleAddr Sample.acceptsGenerator (Sample.generatorHex ++ ":~".toList)
        = network.Result.ok (Sample.generatorKey, 0) := by
  decide

/-- C10, amended: for every valid public key `k`, decoding the sentinel form
`<hex of k>:~` returns `k` with the port left at its zero value, 0; this is the
result of decoding `<hex of k>:0` and differs from the result of decoding
`<hex of k>:<p>` for every 16-bit port `p` other than 0. -/
theorem sentinel_decodes_to_port_zero (verify : PubKey → Bool) (k : PubKey)
    (hk : PubKey.Valid verify k) :
    network.disassembleAddr verify (k.Hex ++ [':', '~']) = network.Result.ok (k, 0)
      ∧ ∀ p, p < 65536 →
          (network.disassembleAddr verify (k.Hex ++ [':', '~'])
              = network.disassembleAddr verify (k.Hex ++ [':'] ++ formatDecimal p)
            ↔ p = 0) := by
  refine ⟨network.disassembleAddr_sentinel verify k hk, ?_⟩
  intro p hp
  have h1 := network.disassembleAddr_port verify k p hk hp
  have h2 := network.disassembleAddr_sentinel verify k hk
  have e : k.Hex ++ [':'] ++ formatDecimal p = k.Hex ++ ':' :: formatDecimal p := by simp
  rw [e, h1, h2]
  constructor
  · intro h
    injection h with h
    injection h with _ h
    exact h.symm
  · intro h
    rw [h]

/-- Witness of C10, amended: the generator key. -/
theorem sentinel_decodes_to_port_zero_witness :
    PubKey.Valid Sample.acceptsGenerator Sample.generatorKey
      ∧ network.disassembleAddr Sample.acceptsGenerator
          (Sample.generatorKey.Hex ++ [':', '~'])
        = network.Result.ok (Sample.generatorKey, 0) :=
  ⟨by decide,
    (sentinel_decodes_to_port_zero Sample.acceptsGenerator Sample.generatorKey
      (by decide)).1⟩
